import Mathlib

/-!
Verification of the core of `poof`, a peer-to-peer file handoff utility.

The development shallowly embeds the Rust source:
* `src/core/ticket.rs` — `Ticket` and `ResponseCode`;
* `src/core/protocol.rs` — the exchange protocol (`send`, `accept`,
  `connect_with_retry`), with the ticket registry (a `DashMap`) modelled as
  an association list keyed by query string;
* `src/core/hosts.rs` — the host registry (`HostConfig`, `HostManager`) and
  the key registry (`KeyConfig`, `KeyManager`), with Rust `HashMap`s modelled
  as association lists (insert replaces, iteration order is the list order);
* `src/core/config.rs` — the whole-document persistence layer
  (`ConfigManager::load`);
* `src/core/mod.rs` — the catch command path of `run`, modelled as the
  event trace it produces.

Manager-level operations (`HostManager`, `KeyManager`) perform
load → mutate → save; they are modelled as functions from the persisted
document to (result, persisted document), where the document is returned
unchanged exactly when `save` is not reached.
-/

namespace Poof

/-! ### Association-list model of `HashMap<String, α>` / `DashMap<String, α>` -/

/-- Lookup in an association list; models `HashMap::get` / `DashMap::get`. -/
def mapGet {α : Type} : List (String × α) → String → Option α
  | [], _ => none
  | p :: rest, k => if p.1 = k then some p.2 else mapGet rest k

/-- Remove every entry with the given key; models `HashMap::remove`
(the removed value, when one exists, is the one `mapGet` returns). -/
def mapErase {α : Type} : List (String × α) → String → List (String × α)
  | [], _ => []
  | p :: rest, k => if p.1 = k then mapErase rest k else p :: mapErase rest k

/-- Insert, replacing any existing entry with the same key;
models `HashMap::insert` / `DashMap::insert`. -/
def mapInsert {α : Type} (m : List (String × α)) (k : String) (v : α) :
    List (String × α) :=
  (k, v) :: mapErase m k

/-- Key-membership test; models `HashMap::contains_key`. -/
def mapContains {α : Type} (m : List (String × α)) (k : String) : Bool :=
  (mapGet m k).isSome

/-- The key sequence; models `HashMap::keys()` (iteration order is the
list order, standing for the arbitrary order of the Rust `HashMap`). -/
def mapKeys {α : Type} (m : List (String × α)) : List String :=
  m.map Prod.fst

/-- Value sequence; models `HashMap::values()`. -/
def mapValues {α : Type} (m : List (String × α)) : List α :=
  m.map Prod.snd

@[simp] theorem mapGet_nil {α : Type} (k : String) : mapGet ([] : List (String × α)) k = none := rfl

@[simp] theorem mapGet_cons {α : Type} (p : String × α) (rest : List (String × α)) (k : String) :
    mapGet (p :: rest) k = if p.1 = k then some p.2 else mapGet rest k := rfl

theorem mapGet_mapInsert_self {α : Type} (m : List (String × α)) (k : String) (v : α) :
    mapGet (mapInsert m k v) k = some v := by
  simp [mapInsert]

theorem mapGet_mapErase_ne {α : Type} (m : List (String × α)) (k j : String) (h : j ≠ k) :
    mapGet (mapErase m k) j = mapGet m j := by
  induction m with
  | nil => rfl
  | cons p rest ih =>
      by_cases hpk : p.1 = k
      · have hkj : k ≠ j := Ne.symm h
        simp [mapErase, hpk, mapGet, hkj, ih]
      · by_cases hpj : p.1 = j
        · simp [mapErase, hpk, mapGet, hpj, h]
        · simp [mapErase, hpk, mapGet, hpj, ih]

theorem mapGet_mapErase_self {α : Type} (m : List (String × α)) (k : String) :
    mapGet (mapErase m k) k = none := by
  induction m with
  | nil => rfl
  | cons p rest ih =>
      by_cases hpk : p.1 = k
      · simpa [mapErase, hpk] using ih
      · simpa [mapErase, hpk, mapGet] using ih

theorem mapGet_mapErase {α : Type} (m : List (String × α)) (k j : String) :
    mapGet (mapErase m k) j = if j = k then none else mapGet m j := by
  by_cases h : j = k
  · simp [h, mapGet_mapErase_self]
  · simp [h, mapGet_mapErase_ne m k j h]

theorem mem_of_mem_mapErase {α : Type} (m : List (String × α)) (k : String)
    (p : String × α) (h : p ∈ mapErase m k) : p ∈ m := by
  induction m with
  | nil => simp [mapErase] at h
  | cons q rest ih =>
      by_cases hqk : q.1 = k
      · rw [mapErase, if_pos hqk] at h
        exact List.mem_cons_of_mem q (ih h)
      · rw [mapErase, if_neg hqk] at h
        rcases List.mem_cons.mp h with h1 | h2
        · exact h1 ▸ List.mem_cons_self q rest
        · exact List.mem_cons_of_mem q (ih h2)

theorem mapGet_mem {α : Type} (m : List (String × α)) (k : String) (v : α)
    (h : mapGet m k = some v) : (k, v) ∈ m := by
  induction m with
  | nil => simp [mapGet] at h
  | cons q rest ih =>
      rw [mapGet_cons] at h
      by_cases hqk : q.1 = k
      · rw [if_pos hqk] at h
        have hv : q.2 = v := by injection h
        have hq : q = (k, v) := by
          cases q
          simp only [Prod.mk.injEq]
          exact ⟨hqk, hv⟩
        exact hq ▸ List.mem_cons_self q rest
      · rw [if_neg hqk] at h
        exact List.mem_cons_of_mem q (ih h)

theorem mapKeys_head?_contains {α : Type} (m : List (String × α)) (d : String)
    (h : (mapKeys m).head? = some d) : mapContains m d = true := by
  cases m with
  | nil => simp [mapKeys] at h
  | cons p rest =>
      have hd : p.1 = d := by simpa [mapKeys] using h
      simp [mapContains, mapGet, hd]

theorem mapKeys_head?_none {α : Type} (m : List (String × α))
    (h : (mapKeys m).head? = none) : m = [] := by
  cases m with
  | nil => rfl
  | cons p rest => simp [mapKeys] at h

theorem mapContains_ne_nil {α : Type} (m : List (String × α)) (d : String)
    (h : mapContains m d = true) : m ≠ [] := by
  intro hnil
  rw [hnil] at h
  simp [mapContains, mapGet] at h

theorem mapGet_mapInsert_ne {α : Type} (m : List (String × α)) (k j : String) (v : α)
    (h : j ≠ k) : mapGet (mapInsert m k v) j = mapGet m j := by
  simp [mapInsert, mapGet, Ne.symm h]
  exact mapGet_mapErase_ne m k j h

/-! ### `src/core/ticket.rs` -/

/-- Structure `Ticket` from `src/core/ticket.rs`: `hash` is the content digest's
string form, `query` the short code, `filename` optional. -/
structure Ticket where
  hash : String
  query : String
  filename : Option String
deriving DecidableEq, Repr

/-- Model of `Ticket::generate_query`: the first 6 characters of the digest string
(the Rust code byte-slices `&hash[..6]`, which for the ASCII digest strings
produced by the blob store is the first 6 characters; it panics on shorter
strings, so theorems assume `6 ≤ hash.length`). `⟨hash.data.take 6⟩` equals
`hash.take 6` by `Batteries`' `String.take_eq`. -/
def Ticket.generate_query (hash : String) : String :=
  ⟨hash.data.take 6⟩

/-- Model of `Ticket::new`. -/
def Ticket.new (hash : String) : Ticket :=
  { hash := hash, query := Ticket.generate_query hash, filename := none }

/-- Model of `Ticket::with_filename`. -/
def Ticket.with_filename (t : Ticket) (filename : Option String) : Ticket :=
  { t with filename := filename }

/-- Enumeration `ResponseCode` from `src/core/ticket.rs`. -/
inductive ResponseCode where
  | Ok
  | NotFound
  | Error
deriving DecidableEq, Repr

/-- Model of `ResponseCode::to_u8` (the `#[repr(u8)]` discriminants). -/
def ResponseCode.to_u8 : ResponseCode → Nat
  | .Ok => 0
  | .NotFound => 1
  | .Error => 2

/-- Model of `ResponseCode::from_u8`: bytes 0, 1, 2 decode; all others yield `None`. -/
def ResponseCode.from_u8 (value : Nat) : Option ResponseCode :=
  match value with
  | 0 => some .Ok
  | 1 => some .NotFound
  | 2 => some .Error
  | _ => none

/-! ### `src/core/protocol.rs` -/

/-- The ticket registry: `Arc<DashMap<String, Ticket>>` keyed by query. -/
def TicketRegistry : Type := List (String × Ticket)

/-- The pure content of `PoofProtocol::send` after the blob store has
ingested the file and returned digest string `hash`: build the ticket
(`Ticket::new(res.hash).with_filename(...)`) and insert it into the
registry keyed by its query. Returns the ticket and the updated registry. -/
def PoofProtocol.send (tickets : TicketRegistry) (hash : String)
    (filename : Option String) : Ticket × TicketRegistry :=
  let ticket := (Ticket.new hash).with_filename filename
  (ticket, mapInsert tickets ticket.query ticket)

/-- Claim C1, drop then lookup: the ticket's query is the first 6
characters of the digest string, and looking that query up right after the
insert returns a ticket whose `hash` equals the digest string. -/
theorem drop_query_and_lookup (tickets : TicketRegistry) (hash : String)
    (filename : Option String) (hlen : 6 ≤ hash.length) :
    (PoofProtocol.send tickets hash filename).1.query = ⟨hash.data.take 6⟩ ∧
    ((PoofProtocol.send tickets hash filename).1.query).length = 6 ∧
    mapGet (PoofProtocol.send tickets hash filename).2
        (PoofProtocol.send tickets hash filename).1.query =
      some (PoofProtocol.send tickets hash filename).1 ∧
    (PoofProtocol.send tickets hash filename).1.hash = hash := by
  refine ⟨rfl, ?_, mapGet_mapInsert_self tickets _ _, rfl⟩
  show (⟨hash.data.take 6⟩ : String).length = 6
  have h1 : (⟨hash.data.take 6⟩ : String).length = (hash.data.take 6).length := rfl
  have h2 : hash.length = hash.data.length := rfl
  rw [h1, List.length_take]
  rw [h2] at hlen
  omega

/-- Witness for `drop_query_and_lookup` at a concrete digest string. -/
theorem drop_query_and_lookup_witness :
    (PoofProtocol.send [] "abcdef12" none).1.query =
        ⟨("abcdef12" : String).data.take 6⟩ ∧
    ((PoofProtocol.send [] "abcdef12" none).1.query).length = 6 ∧
    mapGet (PoofProtocol.send [] "abcdef12" none).2
        (PoofProtocol.send [] "abcdef12" none).1.query =
      some (PoofProtocol.send [] "abcdef12" none).1 ∧
    (PoofProtocol.send [] "abcdef12" none).1.hash = "abcdef12" :=
  drop_query_and_lookup [] "abcdef12" none (by decide)

/-- The response the server writes on one exchange: one response-code byte,
then a 4-byte length prefix, then `body` (`body = []` when the length
prefix written is 0). -/
structure ExchangeResponse where
  code : ResponseCode
  body : List Nat
deriving DecidableEq, Repr

/-- The decision logic of `<PoofProtocol as ProtocolHandler>::accept`
after the 4-byte query length prefix `query_size` has been read:
if it is zero, respond `Error` with an empty body and return without
touching the registry; otherwise read `query` and look it up, answering
`Ok` with the serialized ticket or `NotFound` with an empty body.
`serialize` abstracts `facet_msgpack::to_vec`. The returned `Bool` records
whether the ticket registry was consulted. -/
def PoofProtocol.accept (serialize : Ticket → List Nat) (tickets : TicketRegistry)
    (query_size : Nat) (query : String) : ExchangeResponse × Bool :=
  if query_size = 0 then
    ({ code := ResponseCode.Error, body := [] }, false)
  else
    match mapGet tickets query with
    | some ticket => ({ code := ResponseCode.Ok, body := serialize ticket }, true)
    | none => ({ code := ResponseCode.NotFound, body := [] }, true)

/-- Claim C6: a zero-length query prefix makes the server answer `Error`
with an empty body, and the ticket registry is never consulted. -/
theorem accept_zero_length_query (serialize : Ticket → List Nat)
    (tickets : TicketRegistry) (query : String) :
    PoofProtocol.accept serialize tickets 0 query =
      ({ code := ResponseCode.Error, body := [] }, false) := rfl

/-- The retry count `receive` passes to `connect_with_retry`
(`self.connect_with_retry(node_id, 3)` in `src/core/protocol.rs`). -/
def receive_retries : Nat := 3

/-- The seconds slept between connection attempts
(`Duration::from_secs(2)` in `connect_with_retry`). -/
def retry_delay_secs : Nat := 2

/-- The loop body of `PoofProtocol::connect_with_retry`. `attempt n` is the
outcome of the `n`-th call to `endpoint.connect` (counting from 0, matching
the Rust `attempts` counter); connections are abstracted as `Nat`. Returns
the surfaced result together with the total seconds slept (2 per retry). -/
def connect_with_retry_loop (attempt : Nat → Except String Nat) (retries : Nat)
    (attempts : Nat) : Except String Nat × Nat :=
  match attempt attempts with
  | Except.ok c => (Except.ok c, 0)
  | Except.error e =>
      if _h : attempts < retries then
        let r := connect_with_retry_loop attempt retries (attempts + 1)
        (r.1, r.2 + retry_delay_secs)
      else
        (Except.error e, 0)
termination_by retries - attempts
decreasing_by omega

/-- Model of `PoofProtocol::connect_with_retry`: the loop entered with `attempts = 0`. -/
def PoofProtocol.connect_with_retry (attempt : Nat → Except String Nat)
    (retries : Nat) : Except String Nat × Nat :=
  connect_with_retry_loop attempt retries 0

/-- Claim C3: with the retry count 3 used by `receive`, (a) if the first
two attempts fail and the third succeeds, the client gets the connection
with exactly two 2-second retry delays (4 seconds) and no error; (b) if
every attempt up to index 3 fails, the result is the final (fourth)
attempt's error after three retries (6 seconds of delay) — no further
attempt is consulted. -/
theorem connect_retry_policy (attempt : Nat → Except String Nat) :
    (∀ e0 e1 c, attempt 0 = Except.error e0 → attempt 1 = Except.error e1 →
      attempt 2 = Except.ok c →
      PoofProtocol.connect_with_retry attempt receive_retries = (Except.ok c, 4)) ∧
    (∀ f : Nat → String, (∀ i, i ≤ 3 → attempt i = Except.error (f i)) →
      PoofProtocol.connect_with_retry attempt receive_retries =
        (Except.error (f 3), 6)) := by
  constructor
  · intro e0 e1 c h0 h1 h2
    rw [PoofProtocol.connect_with_retry, receive_retries]
    rw [connect_with_retry_loop, h0]
    rw [connect_with_retry_loop, h1]
    rw [connect_with_retry_loop, h2]
    simp [retry_delay_secs]
  · intro f hf
    rw [PoofProtocol.connect_with_retry, receive_retries]
    rw [connect_with_retry_loop, hf 0 (by omega)]
    rw [connect_with_retry_loop, hf 1 (by omega)]
    rw [connect_with_retry_loop, hf 2 (by omega)]
    rw [connect_with_retry_loop, hf 3 (by omega)]
    simp [retry_delay_secs]

/-- A connect behaviour that fails twice, then succeeds. -/
def attemptTwoFailures : Nat → Except String Nat :=
  fun n => if n < 2 then Except.error "refused" else Except.ok 7

/-- A connect behaviour that always fails. -/
def attemptAlwaysFails : Nat → Except String Nat :=
  fun _ => Except.error "refused"

/-- Witness for `connect_retry_policy` on concrete attempt behaviours. -/
theorem connect_retry_policy_witness :
    PoofProtocol.connect_with_retry attemptTwoFailures receive_retries =
      (Except.ok 7, 4) ∧
    PoofProtocol.connect_with_retry attemptAlwaysFails receive_retries =
      (Except.error "refused", 6) :=
  ⟨(connect_retry_policy attemptTwoFailures).1 "refused" "refused" 7 rfl rfl rfl,
   (connect_retry_policy attemptAlwaysFails).2 (fun _ => "refused")
     (fun _ _ => rfl)⟩

/-- Claim C7: response-code decoding is total — bytes 0, 1, 2 decode to
`Ok`, `NotFound`, `Error`, and every other byte decodes to `none`. -/
theorem response_code_decode_total :
    ResponseCode.from_u8 0 = some ResponseCode.Ok ∧
    ResponseCode.from_u8 1 = some ResponseCode.NotFound ∧
    ResponseCode.from_u8 2 = some ResponseCode.Error ∧
    ∀ b : Nat, 3 ≤ b → ResponseCode.from_u8 b = none := by
  refine ⟨rfl, rfl, rfl, ?_⟩
  intro b hb
  match b, hb with
  | (n + 3), _ => rfl

/-- Witness for `response_code_decode_total` at byte 255. -/
theorem response_code_decode_total_witness :
    ResponseCode.from_u8 255 = none :=
  response_code_decode_total.2.2.2 255 (by decide)

/-! ### `src/core/hosts.rs` — host registry -/

/-- Structure `Host` from `src/core/hosts.rs`; `added_at` / `last_seen` are Unix
seconds, `public_key` is the peer identity's string form. -/
structure Host where
  «alias» : String
  public_key : String
  description : Option String
  added_at : Nat
  last_seen : Option Nat
  metadata : List (String × String)
deriving DecidableEq, Repr

/-- Model of `Host::new`, with the clock reading passed explicitly as `now`. -/
def Host.new (a pk : String) (description : Option String) (now : Nat) : Host :=
  { «alias» := a, public_key := pk, description := description,
    added_at := now, last_seen := none, metadata := [] }

/-- Model of `Host::update_last_seen`, with the clock reading passed explicitly. -/
def Host.update_last_seen (h : Host) (now : Nat) : Host :=
  { h with last_seen := some now }

/-- Structure `HostConfig`: the persisted hosts document, an alias-keyed map. -/
structure HostConfig where
  hosts : List (String × Host)
deriving DecidableEq, Repr

/-- Model of `HostConfig::add_host`: reject a taken alias, then reject a public key
some existing host already has, else insert keyed by the host's alias. -/
def HostConfig.add_host (c : HostConfig) (host : Host) : Except String HostConfig :=
  if mapContains c.hosts host.alias then
    Except.error ("Host with alias '" ++ host.alias ++ "' already exists")
  else
    match (mapValues c.hosts).find? (fun e => e.public_key == host.public_key) with
    | some existing =>
        Except.error ("Host with public key '" ++ host.public_key ++
          "' already exists with alias '" ++ existing.alias ++ "'")
    | none => Except.ok { hosts := mapInsert c.hosts host.alias host }

/-- Model of `HostConfig::remove_host`: remove and return the host, or fail. -/
def HostConfig.remove_host (c : HostConfig) (a : String) :
    Except String (Host × HostConfig) :=
  match mapGet c.hosts a with
  | some h => Except.ok (h, { hosts := mapErase c.hosts a })
  | none => Except.error ("Host with alias '" ++ a ++ "' not found")

/-- Model of `HostConfig::get_host`. -/
def HostConfig.get_host (c : HostConfig) (a : String) : Option Host :=
  mapGet c.hosts a

/-- Model of `HostConfig::update_host_alias`: reject a taken new alias, then
remove-and-reinsert under the new alias. -/
def HostConfig.update_host_alias (c : HostConfig) (old_alias new_alias : String) :
    Except String HostConfig :=
  if mapContains c.hosts new_alias then
    Except.error ("Host with alias '" ++ new_alias ++ "' already exists")
  else
    match c.remove_host old_alias with
    | Except.error e => Except.error e
    | Except.ok (host, c1) => c1.add_host { host with «alias» := new_alias }

/-- Returns `true` iff an `Except` is `ok`; models `Result::is_ok`. -/
def resultOk {α : Type} : Except String α → Bool
  | Except.ok _ => true
  | Except.error _ => false

/-- Model of `HostManager::add_host`: load → `HostConfig::add_host` → save on
success. The persisted document is modelled directly as the loaded
`HostConfig`; the returned pair is (command result, document after the
call), the document being unchanged exactly when `save` is not reached. -/
def HostManager.add_host (file : HostConfig) (a pk : String)
    (description : Option String) (now : Nat) : Except String Unit × HostConfig :=
  match file.add_host (Host.new a pk description now) with
  | Except.ok c => (Except.ok (), c)
  | Except.error e => (Except.error e, file)

/-- Model of `HostManager::rename_host`: load → `update_host_alias` → save on success. -/
def HostManager.rename_host (file : HostConfig) (old_alias new_alias : String) :
    Except String Unit × HostConfig :=
  match file.update_host_alias old_alias new_alias with
  | Except.ok c => (Except.ok (), c)
  | Except.error e => (Except.error e, file)

/-- Model of `HostManager::update_last_seen`: a silent no-op when the alias is
absent; otherwise stamp the host and save. -/
def HostManager.update_last_seen (file : HostConfig) (a : String) (now : Nat) :
    HostConfig :=
  match mapGet file.hosts a with
  | some h => { hosts := mapInsert file.hosts a (h.update_last_seen now) }
  | none => file

/-- Claim C4: `add` fails when the alias is taken, and when the public key
is already held by an existing host (necessarily under a different alias,
the new alias being absent); both failures leave the persisted registry
exactly unchanged. When neither conflict holds, the new host is inserted. -/
theorem add_host_conflict_or_insert (file : HostConfig) (a pk : String)
    (d : Option String) (now : Nat) :
    (mapContains file.hosts a = true →
      resultOk (HostManager.add_host file a pk d now).1 = false ∧
      (HostManager.add_host file a pk d now).2 = file) ∧
    (mapContains file.hosts a = false →
      (∃ h, h ∈ mapValues file.hosts ∧ h.public_key = pk) →
      resultOk (HostManager.add_host file a pk d now).1 = false ∧
      (HostManager.add_host file a pk d now).2 = file) ∧
    (mapContains file.hosts a = false →
      (∀ h ∈ mapValues file.hosts, h.public_key ≠ pk) →
      resultOk (HostManager.add_host file a pk d now).1 = true ∧
      (HostManager.add_host file a pk d now).2.hosts =
        mapInsert file.hosts a (Host.new a pk d now)) := by
  refine ⟨?_, ?_, ?_⟩
  · intro hc
    simp [HostManager.add_host, HostConfig.add_host, Host.new, hc, resultOk]
  · intro hc hex
    have hfind : ((mapValues file.hosts).find?
        (fun e => e.public_key == pk)).isSome := by
      rw [List.find?_isSome]
      obtain ⟨h0, hmem, hpk⟩ := hex
      exact ⟨h0, hmem, by simp [hpk]⟩
    obtain ⟨ex, hexq⟩ := Option.isSome_iff_exists.mp hfind
    simp [HostManager.add_host, HostConfig.add_host, Host.new, hc, hexq, resultOk]
  · intro hc hall
    have hfind : (mapValues file.hosts).find?
        (fun e => e.public_key == pk) = none := by
      rw [List.find?_eq_none]
      intro h0 hmem
      simp [hall h0 hmem]
    simp [HostManager.add_host, HostConfig.add_host, Host.new, hc, hfind, resultOk]

/-- A concrete host used by witnesses. -/
def hostX : Host := Host.new "x" "pk1" none 0

/-- A one-host registry used by witnesses. -/
def fileX : HostConfig := { hosts := [("x", hostX)] }

/-- Witness for `add_host_conflict_or_insert`: duplicate alias, duplicate
public key, and a conflict-free insert, on a concrete one-host registry. -/
theorem add_host_conflict_or_insert_witness :
    (resultOk (HostManager.add_host fileX "x" "pk2" none 1).1 = false ∧
      (HostManager.add_host fileX "x" "pk2" none 1).2 = fileX) ∧
    (resultOk (HostManager.add_host fileX "y" "pk1" none 1).1 = false ∧
      (HostManager.add_host fileX "y" "pk1" none 1).2 = fileX) ∧
    (resultOk (HostManager.add_host fileX "y" "pk2" none 1).1 = true ∧
      (HostManager.add_host fileX "y" "pk2" none 1).2.hosts =
        mapInsert fileX.hosts "y" (Host.new "y" "pk2" none 1)) :=
  ⟨(add_host_conflict_or_insert fileX "x" "pk2" none 1).1 (by decide),
   (add_host_conflict_or_insert fileX "y" "pk1" none 1).2.1 (by decide)
     ⟨hostX, by simp [fileX, mapValues], rfl⟩,
   (add_host_conflict_or_insert fileX "y" "pk2" none 1).2.2 (by decide)
     (by intro h hm
         simp [fileX, mapValues] at hm
         simp [hm, hostX, Host.new])⟩

/-- Claim C8: rename fails when the old alias is absent or the new alias is
taken; every failure leaves the persisted registry exactly unchanged (so
both hosts keep their records); on success the host moves to the new alias
with only its alias field changed, and the old alias no longer resolves. -/
theorem rename_host_checks (file : HostConfig) (old_alias new_alias : String) :
    (resultOk (HostManager.rename_host file old_alias new_alias).1 = false →
      (HostManager.rename_host file old_alias new_alias).2 = file) ∧
    (mapContains file.hosts new_alias = true →
      resultOk (HostManager.rename_host file old_alias new_alias).1 = false) ∧
    (mapContains file.hosts old_alias = false →
      resultOk (HostManager.rename_host file old_alias new_alias).1 = false) ∧
    (∀ h, mapGet file.hosts old_alias = some h →
      resultOk (HostManager.rename_host file old_alias new_alias).1 = true →
      mapGet (HostManager.rename_host file old_alias new_alias).2.hosts new_alias =
          some { h with «alias» := new_alias } ∧
      mapGet (HostManager.rename_host file old_alias new_alias).2.hosts old_alias =
          none) := by
  refine ⟨?_, ?_, ?_, ?_⟩
  · intro hfail
    rw [HostManager.rename_host] at *
    revert hfail
    cases file.update_host_alias old_alias new_alias with
    | ok c => intro hfail; simp [resultOk] at hfail
    | error e => intro _; rfl
  · intro hc
    simp [HostManager.rename_host, HostConfig.update_host_alias, hc, resultOk]
  · intro hc
    have hnone : mapGet file.hosts old_alias = none := by
      revert hc
      rw [mapContains]
      cases mapGet file.hosts old_alias with
      | some h => intro hc; simp at hc
      | none => intro _; rfl
    by_cases hnew : mapContains file.hosts new_alias = true
    · simp [HostManager.rename_host, HostConfig.update_host_alias, hnew, resultOk]
    · simp [HostManager.rename_host, HostConfig.update_host_alias,
        Bool.not_eq_true _ ▸ hnew, HostConfig.remove_host, hnone, resultOk]
  · intro h hget hok
    have hnew : mapContains file.hosts new_alias = false := by
      by_contra hc
      have hc2 : mapContains file.hosts new_alias = true := by
        revert hc; cases mapContains file.hosts new_alias <;> simp
      rw [HostManager.rename_host, HostConfig.update_host_alias, if_pos hc2] at hok
      simp [resultOk] at hok
    have hold_ne : old_alias ≠ new_alias := by
      intro heq
      rw [heq] at hget
      rw [mapContains, hget] at hnew
      simp at hnew
    rw [HostManager.rename_host, HostConfig.update_host_alias, if_neg (by simp [hnew]),
      HostConfig.remove_host, hget] at hok ⊢
    revert hok
    simp only [HostConfig.add_host]
    by_cases hcn : mapContains (mapErase file.hosts old_alias)
        ({ h with «alias» := new_alias } : Host).alias
    · intro hok; rw [if_pos hcn] at hok; simp [resultOk] at hok
    · rw [if_neg hcn]
      cases hfind : (mapValues (mapErase file.hosts old_alias)).find?
          (fun e => e.public_key == ({ h with «alias» := new_alias } : Host).public_key) with
      | some ex => intro hok; simp [resultOk] at hok
      | none =>
          intro _
          constructor
          · show mapGet (mapInsert (mapErase file.hosts old_alias) new_alias
                { h with «alias» := new_alias }) new_alias =
              some { h with «alias» := new_alias }
            exact mapGet_mapInsert_self _ _ _
          · show mapGet (mapInsert (mapErase file.hosts old_alias) new_alias
                { h with «alias» := new_alias }) old_alias = none
            rw [mapGet_mapInsert_ne _ _ _ _ hold_ne]
            exact mapGet_mapErase_self file.hosts old_alias

/-- Witness for `rename_host_checks`: a taken new alias fails and leaves
the registry unchanged; renaming to a fresh alias succeeds. -/
theorem rename_host_checks_witness :
    ((HostManager.rename_host fileX "x" "x").2 = fileX) ∧
    (resultOk (HostManager.rename_host fileX "x" "x").1 = false) ∧
    (resultOk (HostManager.rename_host fileX "z" "w").1 = false) ∧
    (mapGet (HostManager.rename_host fileX "x" "w").2.hosts "w" =
        some { hostX with «alias» := "w" } ∧
      mapGet (HostManager.rename_host fileX "x" "w").2.hosts "x" = none) :=
  ⟨(rename_host_checks fileX "x" "x").1
      ((rename_host_checks fileX "x" "x").2.1 (by decide)),
   (rename_host_checks fileX "x" "x").2.1 (by decide),
   (rename_host_checks fileX "z" "w").2.2.1 (by decide),
   (rename_host_checks fileX "x" "w").2.2.2 hostX (by decide) (by decide)⟩

/-! ### `src/core/hosts.rs` — key registry -/

/-- Structure `HostKey` from `src/core/hosts.rs`; `secret_key` is the secret
identity's string form, `created_at` Unix seconds. -/
structure HostKey where
  name : String
  secret_key : String
  created_at : Nat
  description : Option String
deriving DecidableEq, Repr

/-- Structure `KeyConfig`: the persisted keys document — name-keyed map plus the
name of the default key. -/
structure KeyConfig where
  keys : List (String × HostKey)
  default_key : Option String
deriving DecidableEq, Repr

/-- Model of `KeyConfig::default()` (derived `Default`): empty map, no default. -/
def KeyConfig.empty : KeyConfig :=
  { keys := [], default_key := none }

/-- Model of `KeyConfig::add_key`: reject a taken name, insert keyed by the key's
name, and make it the default when no default was set. -/
def KeyConfig.add_key (c : KeyConfig) (key : HostKey) : Except String KeyConfig :=
  if mapContains c.keys key.name then
    Except.error ("Key with name '" ++ key.name ++ "' already exists")
  else
    Except.ok
      { keys := mapInsert c.keys key.name key,
        default_key :=
          match c.default_key with
          | none => some key.name
          | some d => some d }

/-- Model of `KeyConfig::remove_key`: remove and return the key, or fail; when the
removed key was the default, the default becomes the first remaining key
in iteration order (`self.keys.keys().next()`), or `none`. -/
def KeyConfig.remove_key (c : KeyConfig) (name : String) :
    Except String (HostKey × KeyConfig) :=
  match mapGet c.keys name with
  | none => Except.error ("Key with name '" ++ name ++ "' not found")
  | some key =>
      Except.ok (key,
        { keys := mapErase c.keys name,
          default_key :=
            if c.default_key = some key.name then
              (mapKeys (mapErase c.keys name)).head?
            else c.default_key })

/-- Model of `KeyConfig::set_default_key`: fail on an unknown name, else set it. -/
def KeyConfig.set_default_key (c : KeyConfig) (name : String) :
    Except String KeyConfig :=
  if mapContains c.keys name then
    Except.ok { c with default_key := some name }
  else
    Except.error ("Key with name '" ++ name ++ "' not found")

/-- Claim C5: adding the first key to the pristine (empty, defaultless)
registry makes it the default; removing the current default reassigns the
default to some remaining key, or clears it when the registry becomes
empty; removing a non-default key leaves the default unchanged. -/
theorem key_default_lifecycle :
    (∀ k : HostKey, KeyConfig.add_key KeyConfig.empty k =
      Except.ok { keys := [(k.name, k)], default_key := some k.name }) ∧
    (∀ c name key c1, KeyConfig.remove_key c name = Except.ok (key, c1) →
      c.default_key = some key.name →
      (c1.keys = [] ∧ c1.default_key = none) ∨
      (∃ d, c1.default_key = some d ∧ mapContains c1.keys d = true)) ∧
    (∀ c name key c1, KeyConfig.remove_key c name = Except.ok (key, c1) →
      c.default_key ≠ some key.name →
      c1.default_key = c.default_key) := by
  refine ⟨fun k => rfl, ?_, ?_⟩
  · intro c name key c1 hrem hdef
    rw [KeyConfig.remove_key] at hrem
    cases hget : mapGet c.keys name with
    | none => rw [hget] at hrem; exact absurd hrem (by simp)
    | some key0 =>
        rw [hget] at hrem
        simp only [Except.ok.injEq, Prod.mk.injEq] at hrem
        obtain ⟨hk, hc1⟩ := hrem
        subst hk
        rw [if_pos hdef] at hc1
        cases hE : mapErase c.keys name with
        | nil =>
            left
            rw [← hc1, hE]
            exact ⟨rfl, rfl⟩
        | cons p rest =>
            right
            refine ⟨p.1, ?_, ?_⟩
            · rw [← hc1, hE]; rfl
            · rw [← hc1, hE]
              simp [mapContains, mapGet]
  · intro c name key c1 hrem hdef
    rw [KeyConfig.remove_key] at hrem
    cases hget : mapGet c.keys name with
    | none => rw [hget] at hrem; exact absurd hrem (by simp)
    | some key0 =>
        rw [hget] at hrem
        simp only [Except.ok.injEq, Prod.mk.injEq] at hrem
        obtain ⟨hk, hc1⟩ := hrem
        subst hk
        rw [if_neg hdef] at hc1
        rw [← hc1]

/-- A concrete key named `A`. -/
def keyA : HostKey := { name := "A", secret_key := "skA", created_at := 0, description := none }

/-- A concrete key named `B`. -/
def keyB : HostKey := { name := "B", secret_key := "skB", created_at := 0, description := none }

/-- The registry `{A (default), B}` of the spec's example. -/
def configAB : KeyConfig :=
  { keys := [("A", keyA), ("B", keyB)], default_key := some "A" }

/-- Witness for `key_default_lifecycle` on `{A (default), B}`: the first
key added becomes default, `remove(A)` reassigns the default to a
remaining key, `remove(B)` leaves the default at `A`. -/
theorem key_default_lifecycle_witness :
    (KeyConfig.add_key KeyConfig.empty keyA =
      Except.ok { keys := [("A", keyA)], default_key := some "A" }) ∧
    ((({ keys := [("B", keyB)], default_key := some "B" } : KeyConfig).keys = [] ∧
      ({ keys := [("B", keyB)], default_key := some "B" } : KeyConfig).default_key = none) ∨
     (∃ d, ({ keys := [("B", keyB)], default_key := some "B" } : KeyConfig).default_key = some d ∧
       mapContains ({ keys := [("B", keyB)], default_key := some "B" } : KeyConfig).keys d = true)) ∧
    (({ keys := [("A", keyA)], default_key := some "A" } : KeyConfig).default_key =
      configAB.default_key) :=
  ⟨key_default_lifecycle.1 keyA,
   key_default_lifecycle.2.1 configAB "A" keyA
     { keys := [("B", keyB)], default_key := some "B" } rfl rfl,
   key_default_lifecycle.2.2 configAB "B" keyB
     { keys := [("A", keyA)], default_key := some "A" } rfl (by decide)⟩

/-- The keys document is well-formed when every entry is stored under its
key's `name` field — the code only ever inserts `key` at `key.name`. -/
def KeyConfig.Wf (c : KeyConfig) : Prop :=
  ∀ p ∈ c.keys, p.1 = p.2.name

/-- Claim C10's invariant: the default-key field is set exactly when the
key map is non-empty, and whenever set it names a key present in the map. -/
def KeyConfig.DefaultInv (c : KeyConfig) : Prop :=
  (c.default_key.isSome ↔ c.keys ≠ []) ∧
  (∀ d, c.default_key = some d → mapContains c.keys d = true)

/-- Claim C10: the pristine registry satisfies the invariant, and each of
`add_key`, `remove_key`, `set_default_key`, when it succeeds on a
well-formed registry satisfying the invariant, yields a well-formed
registry satisfying the invariant (failures return the document unread,
the registries untouched). -/
theorem key_default_invariant_preserved (c : KeyConfig)
    (hwf : KeyConfig.Wf c) (hinv : KeyConfig.DefaultInv c) :
    (KeyConfig.Wf KeyConfig.empty ∧ KeyConfig.DefaultInv KeyConfig.empty) ∧
    (∀ k c1, KeyConfig.add_key c k = Except.ok c1 →
      KeyConfig.Wf c1 ∧ KeyConfig.DefaultInv c1) ∧
    (∀ n k c1, KeyConfig.remove_key c n = Except.ok (k, c1) →
      KeyConfig.Wf c1 ∧ KeyConfig.DefaultInv c1) ∧
    (∀ n c1, KeyConfig.set_default_key c n = Except.ok c1 →
      KeyConfig.Wf c1 ∧ KeyConfig.DefaultInv c1) := by
  refine ⟨⟨fun p hp => by simp [KeyConfig.empty] at hp, by
    constructor
    · constructor
      · intro hs; simp [KeyConfig.empty] at hs
      · intro hne; simp [KeyConfig.empty] at hne
    · intro d hd; simp [KeyConfig.empty] at hd⟩, ?_, ?_, ?_⟩
  · -- add_key
    intro k c1 hadd
    rw [KeyConfig.add_key] at hadd
    by_cases hc : mapContains c.keys k.name
    · rw [if_pos hc] at hadd; exact absurd hadd (by simp)
    · rw [if_neg hc] at hadd
      injection hadd with h1
      subst h1
      constructor
      · intro p hp
        rcases List.mem_cons.mp hp with h1 | h2
        · rw [h1]
        · exact hwf p (mem_of_mem_mapErase _ _ _ h2)
      · constructor
        · constructor
          · intro _; exact fun h => by simp [mapInsert] at h
          · intro _
            cases c.default_key <;> simp
        · intro d hd
          cases hcd : c.default_key with
          | none =>
              rw [hcd] at hd
              have hdk : d = k.name := by simpa using hd.symm
              rw [hdk]
              simp [mapContains, mapGet_mapInsert_self]
          | some d0 =>
              rw [hcd] at hd
              have hdd : d = d0 := by simpa using hd.symm
              subst hdd
              have hcont : mapContains c.keys d = true := hinv.2 d hcd
              have hne : d ≠ k.name := by
                intro heq
                rw [heq] at hcont
                rw [hcont] at hc
                exact hc rfl
              rw [mapContains, mapGet_mapInsert_ne _ _ _ _ hne]
              exact hcont
  · -- remove_key
    intro n k c1 hrem
    rw [KeyConfig.remove_key] at hrem
    cases hget : mapGet c.keys n with
    | none => rw [hget] at hrem; exact absurd hrem (by simp)
    | some key0 =>
        rw [hget] at hrem
        simp only [Except.ok.injEq, Prod.mk.injEq] at hrem
        obtain ⟨hk, hc1⟩ := hrem
        subst hk
        have hwf1 : KeyConfig.Wf c1 := by
          intro p hp
          rw [← hc1] at hp
          exact hwf p (mem_of_mem_mapErase _ _ _ hp)
        have hkn : n = key0.name := hwf (n, key0) (mapGet_mem _ _ _ hget)
        refine ⟨hwf1, ?_⟩
        by_cases hdef : c.default_key = some key0.name
        · rw [if_pos hdef] at hc1
          constructor
          · constructor
            · intro hs
              rw [← hc1] at hs ⊢
              simp only at hs ⊢
              cases hh : (mapKeys (mapErase c.keys n)).head? with
              | none => rw [hh] at hs; simp at hs
              | some d =>
                  exact mapContains_ne_nil _ d (mapKeys_head?_contains _ d hh)
            · intro hne
              rw [← hc1] at hne ⊢
              simp only at hne ⊢
              cases hh : (mapKeys (mapErase c.keys n)).head? with
              | none => exact absurd (mapKeys_head?_none _ hh) hne
              | some d => simp
          · intro d hd
            rw [← hc1] at hd ⊢
            simp only at hd ⊢
            cases hh : (mapKeys (mapErase c.keys n)).head? with
            | none => rw [hh] at hd; simp at hd
            | some d0 =>
                rw [hh] at hd
                have : d0 = d := by simpa using hd
                subst this
                exact mapKeys_head?_contains _ d0 hh
        · rw [if_neg hdef] at hc1
          have hdef_eq : c1.default_key = c.default_key := by rw [← hc1]
          constructor
          · rw [hdef_eq]
            constructor
            · intro hs
              obtain ⟨d, hd⟩ := Option.isSome_iff_exists.mp hs
              have hcont : mapContains c.keys d = true := hinv.2 d hd
              have hdn : d ≠ n := by
                intro heq
                rw [heq, hkn] at hd
                exact hdef hd
              have : mapContains c1.keys d = true := by
                rw [← hc1]
                simpa [mapContains, mapGet_mapErase_ne c.keys n d hdn] using hcont
              exact mapContains_ne_nil _ d this
            · intro hne
              by_contra hno
              have hnone : c.default_key = none := by
                cases hcd : c.default_key with
                | none => rfl
                | some d => rw [hcd] at hno; simp at hno
              have : c.keys = [] := by
                by_contra hkeys
                have := hinv.1.mpr hkeys
                rw [hnone] at this
                simp at this
              rw [this] at hget
              simp [mapGet] at hget
          · intro d hd
            rw [hdef_eq] at hd
            have hcont : mapContains c.keys d = true := hinv.2 d hd
            have hdn : d ≠ n := by
              intro heq
              rw [heq, hkn] at hd
              exact hdef hd
            rw [← hc1]
            simpa [mapContains, mapGet_mapErase_ne c.keys n d hdn] using hcont
  · -- set_default_key
    intro n c1 hset
    rw [KeyConfig.set_default_key] at hset
    by_cases hc : mapContains c.keys n
    · rw [if_pos hc] at hset
      injection hset with h1
      subst h1
      refine ⟨fun p hp => hwf p hp, ?_, ?_⟩
      · constructor
        · intro _; exact mapContains_ne_nil _ n hc
        · intro _; simp
      · intro d hd
        have : n = d := by simpa using hd
        exact this ▸ hc
    · rw [if_neg hc] at hset; exact absurd hset (by simp)

/-- Witness for `key_default_invariant_preserved`: the invariant survives
`add_key`, `remove_key` and `set_default_key` on `{A (default), B}`. -/
theorem key_default_invariant_preserved_witness :
    (KeyConfig.Wf KeyConfig.empty ∧ KeyConfig.DefaultInv KeyConfig.empty) ∧
    (KeyConfig.Wf { keys := [("B", keyB)], default_key := some "B" } ∧
      KeyConfig.DefaultInv { keys := [("B", keyB)], default_key := some "B" }) := by
  have hwf : KeyConfig.Wf configAB := by
    intro p hp
    rcases List.mem_cons.mp hp with h1 | h2
    · rw [h1]; rfl
    · rcases List.mem_cons.mp h2 with h3 | h4
      · rw [h3]; rfl
      · simp [configAB] at h4
  have hinv : KeyConfig.DefaultInv configAB := by
    constructor
    · constructor
      · intro _; simp [configAB]
      · intro _; simp [configAB]
    · intro d hd
      have hda : d = "A" := by
        simp only [configAB, Option.some.injEq] at hd
        exact hd.symm
      rw [hda]
      decide
  have h := key_default_invariant_preserved configAB hwf hinv
  exact ⟨h.1, h.2.2.1 "A" keyA { keys := [("B", keyB)], default_key := some "B" } rfl⟩

/-! ### `src/core/config.rs` — persistence layer -/

/-- Model of `ConfigManager::load`: the backing document is `none` when the file
does not exist, else its full text; `parse` abstracts
`facet_toml::from_str` for the registry type `T`. A missing file yields
`T`'s default value; a parse failure fails the whole load with the
wrapped error, recovering nothing. -/
def ConfigManager.load {T : Type} (defaultVal : T)
    (parse : String → Except String T) (file : Option String) : Except String T :=
  match file with
  | none => Except.ok defaultVal
  | some content =>
      match parse content with
      | Except.ok config => Except.ok config
      | Except.error e => Except.error ("Failed to parse config: " ++ e)

/-- Claim C9: for every registry type, `load` of a missing document is the
default value; when the document exists, a parse failure fails the whole
load (no partial data), and a parse success returns the parsed document. -/
theorem load_default_or_fail {T : Type} (defaultVal : T)
    (parse : String → Except String T) :
    (ConfigManager.load defaultVal parse none = Except.ok defaultVal) ∧
    (∀ content e, parse content = Except.error e →
      ConfigManager.load defaultVal parse (some content) =
        Except.error ("Failed to parse config: " ++ e)) ∧
    (∀ content config, parse content = Except.ok config →
      ConfigManager.load defaultVal parse (some content) = Except.ok config) := by
  refine ⟨rfl, ?_, ?_⟩ <;> intro content x h <;> simp [ConfigManager.load, h]

/-- A toy document parser for the key registry: only the empty document is
well-formed. -/
def toyParse : String → Except String KeyConfig :=
  fun s => if s = "" then Except.ok KeyConfig.empty else Except.error "expected table"

/-- Witness for `load_default_or_fail`: a missing keys document loads as
the empty registry, a malformed one fails the whole load. -/
theorem load_default_or_fail_witness :
    (ConfigManager.load KeyConfig.empty toyParse none = Except.ok KeyConfig.empty) ∧
    (ConfigManager.load KeyConfig.empty toyParse (some "garbage") =
      Except.error ("Failed to parse config: " ++ "expected table")) ∧
    (ConfigManager.load KeyConfig.empty toyParse (some "") =
      Except.ok KeyConfig.empty) :=
  ⟨(load_default_or_fail KeyConfig.empty toyParse).1,
   (load_default_or_fail KeyConfig.empty toyParse).2.1 "garbage" "expected table" rfl,
   (load_default_or_fail KeyConfig.empty toyParse).2.2 "" KeyConfig.empty rfl⟩

/-! ### `src/core/mod.rs` — the catch command path of `run` -/

/-- The observable events of one catch command, in program order. -/
inductive CatchEvent where
  | updateLastSeen («alias» : String)
  | exchange (ok : Bool)
deriving DecidableEq, Repr

/-- The `Command::Catch` arm of `run`: resolve `host` in the host
registry; when it is a known alias, call `hosts.update_last_seen` (a
load/save round trip on the persisted document) and then run the exchange
(`proto.receive`); when it is unknown, fall back to parsing it as a raw
node id (`validNodeId`) and run the exchange without touching the
registry. `exchangeOk` abstracts whether `receive` returns without error.
Returns the persisted host registry after the command and the event
trace. -/
def run_catch (file : HostConfig) (host : String) (validNodeId : Bool)
    (exchangeOk : Bool) (now : Nat) : HostConfig × List CatchEvent :=
  match HostConfig.get_host file host with
  | some h =>
      (HostManager.update_last_seen file h.alias now,
       [CatchEvent.updateLastSeen h.alias, CatchEvent.exchange exchangeOk])
  | none =>
      if validNodeId then (file, [CatchEvent.exchange exchangeOk])
      else (file, [])

/-- Counterexample to claim C2: on a registry holding host `x` with
`last_seen = none`, a catch from `x` whose exchange FAILS still writes
`last_seen` — and the write (trace index 0) precedes the exchange (trace
index 1), so `last_seen` is not set "only after a successful catch". -/
theorem last_seen_set_on_failed_catch :
    (run_catch fileX "x" true false 42).2 =
      [CatchEvent.updateLastSeen "x", CatchEvent.exchange false] ∧
    mapGet (run_catch fileX "x" true false 42).1.hosts "x" =
      some { hostX with last_seen := some 42 } ∧
    hostX.last_seen = none := by
  refine ⟨by decide, by decide, rfl⟩

/-- Amended claim C2: whenever a catch resolves a known host alias, that
host's `last_seen` is updated immediately after resolution — before the
exchange runs and regardless of the exchange's outcome; when the argument
is not a known alias, the registry is left untouched. -/
theorem last_seen_updated_before_exchange (file : HostConfig) (host : String)
    (validNodeId exchangeOk : Bool) (now : Nat) :
    (∀ h, HostConfig.get_host file host = some h →
      (run_catch file host validNodeId exchangeOk now).2 =
        [CatchEvent.updateLastSeen h.alias, CatchEvent.exchange exchangeOk] ∧
      (run_catch file host validNodeId exchangeOk now).1 =
        HostManager.update_last_seen file h.alias now) ∧
    (HostConfig.get_host file host = none →
      (run_catch file host validNodeId exchangeOk now).1 = file) := by
  constructor
  · intro h hget
    simp [run_catch, hget]
  · intro hget
    simp only [run_catch, hget]
    cases validNodeId <;> rfl

/-- Witness for `last_seen_updated_before_exchange` on the one-host
registry: a known alias is stamped, an unknown one leaves the file as is. -/
theorem last_seen_updated_before_exchange_witness :
    ((run_catch fileX "x" true true 7).2 =
        [CatchEvent.updateLastSeen hostX.alias, CatchEvent.exchange true] ∧
      (run_catch fileX "x" true true 7).1 =
        HostManager.update_last_seen fileX hostX.alias 7) ∧
    ((run_catch fileX "y" true true 7).1 = fileX) :=
  ⟨(last_seen_updated_before_exchange fileX "x" true true 7).1 hostX rfl,
   (last_seen_updated_before_exchange fileX "y" true true 7).2 rfl⟩

end Poof
